import Mathlib

/-!
Shallow embedding of the auxcallback deferred-callback engine
(`src/src/lib.rs`): the channel registry, the four drain operations
(`process_all_callbacks`, `process_all_callbacks_for`, `process_callbacks`,
`process_callbacks_for`) and the host dispatch hook `_process_callbacks`.

Modelling conventions:
* A deferred function (`DeferredFunc`) is abstracted as a `Callback`: an
  identity tag, the `DMResult` it returns when invoked (`Except.error msg`
  models a runtime failure carrying `msg`), and the amount by which the
  coarse wall clock reading (`coarsetime::Instant::elapsed`, in
  milliseconds) grows across its invocation.  The coarse clock may report a
  zero increase for a fast callback, so `cost` may be `0`.
* The `DashMap` registry is one observed iteration order: a list of
  `(id, queue)` entries, each queue front-first in enqueue (FIFO) order.
  Draining is modelled sequentially, with no concurrent enqueues.
* `Proc::find(...).unwrap()`, `Value::from_string(...)` (whose error the
  code propagates with `?`) and the stack-trace proc call (whose result the
  code discards with `let _ =`) are parameters of an `Env`.
* The blocking drain iterates a `flume::Receiver` of a channel whose sender
  half is stored in the registry forever, so the iterator can never end by
  disconnection; its progress is measured in recv steps ("fuel").
-/

set_option maxHeartbeats 1000000

namespace Auxcallback

instance {ε α : Type} [DecidableEq ε] [DecidableEq α] : DecidableEq (Except ε α) := fun a b =>
  match a, b with
  | .ok x, .ok y =>
    if h : x = y then .isTrue (by rw [h]) else .isFalse (by intro hh; cases hh; exact h rfl)
  | .ok _, .error _ => .isFalse (by intro hh; cases hh)
  | .error _, .ok _ => .isFalse (by intro hh; cases hh)
  | .error x, .error y =>
    if h : x = y then .isTrue (by rw [h]) else .isFalse (by intro hh; cases hh; exact h rfl)

/-- One deferred callback: identity `tag`, the result its invocation
returns, and the observed coarse-clock time the invocation takes. -/
structure Callback where
  tag : Nat
  outcome : Except String Unit
  cost : Nat
deriving DecidableEq, Repr

/-- The callback-channel registry (`CALLBACK_CHANNELS`) in one iteration
order; each entry holds the queue currently buffered in that channel. -/
abbrev Registry := List (String × List Callback)

/-- Log of reports made to the external error sink: each entry is the
converted message together with the sink call's own (discarded) outcome. -/
abbrev SinkLog := List (String × Except String Unit)

/-- Host environment: whether `Proc::find` succeeds on a proc path, the
`Value::from_string` conversion (fallible; the code applies `?` to it at
every report site), and the outcome of calling the stack-trace proc on a
converted message (discarded by the engine). -/
structure Env where
  procFind : String → Bool
  fromString : String → Except String String
  sinkCall : String → Except String Unit

/-- Replace only the sink behaviour of an environment. -/
def Env.withSink (e : Env) (σ : String → Except String Unit) : Env :=
  ⟨e.procFind, e.fromString, σ⟩

/-- Path of the error-reporting proc looked up by every drain. -/
def stackTracePath : String := "/proc/auxtools_stack_trace"

/-- Queue of the channel named `id`, or `[]` when the channel is absent. -/
def registryGet (reg : Registry) (id : String) : List Callback :=
  match reg with
  | [] => []
  | e :: rest => if e.1 == id then e.2 else registryGet rest id

/-- Whether a channel named `id` exists. -/
def registryHas (reg : Registry) (id : String) : Bool :=
  match reg with
  | [] => false
  | e :: rest => e.1 == id || registryHas rest id

/-- The `entry(id).or_insert(...)` step: create an empty channel for `id`
when absent (new entries appear at an unspecified place in the iteration
order; we pick the end), leave the registry unchanged when present. -/
def registryInsert (reg : Registry) (id : String) : Registry :=
  if registryHas reg id then reg else reg ++ [(id, [])]

/-- Replace the queue of the (first) channel named `id`. -/
def registrySet (reg : Registry) (id : String) (q : List Callback) : Registry :=
  match reg with
  | [] => []
  | e :: rest => if e.1 == id then (id, q) :: rest else e :: registrySet rest id q

/-- Boolean success test for `Except`. -/
def exOk {α : Type} : Except String α → Bool
  | .ok _ => true
  | .error _ => false

/-- Attach a channel id to each invoked callback. -/
def tagged (id : String) (l : List Callback) : List (String × Callback) :=
  l.map (fun cb => (id, cb))

/-- Total observed cost of a list of callbacks. -/
def costSum (l : List Callback) : Nat :=
  (l.map Callback.cost).sum

/-- Total observed cost of a tagged invocation trace. -/
def costSumT (l : List (String × Callback)) : Nat :=
  (l.map (fun p => p.2.cost)).sum

/-- Messages that reach the external sink when the given callbacks are
invoked: each failing callback whose message converts contributes its
converted message, in order. -/
def reportedMsgs (env : Env) (l : List Callback) : List String :=
  l.filterMap (fun cb =>
    match cb.outcome with
    | .ok _ => none
    | .error m =>
      match env.fromString m with
      | .ok v => some v
      | .error _ => none)

/-- Result of one non-blocking pass (`receiver.try_iter()`) over a single
channel with no time budget: the callbacks invoked (in order), the sink
log, the drain's `DMResult`, and the callbacks left in the channel. -/
structure ChanRun where
  invoked : List Callback
  sunk : SinkLog
  res : Except String Unit
  left : List Callback
deriving Repr

/-- Inner loop of `process_callbacks`: for each queued callback, invoke it;
on failure convert the message (`?` propagates a conversion error, ending
the drain with the remaining callbacks still queued) and call the sink,
discarding the sink's own result. -/
def drainQueue (env : Env) : List Callback → ChanRun
  | [] => ⟨[], [], .ok (), []⟩
  | cb :: rest =>
    match cb.outcome with
    | .ok _ =>
      let r := drainQueue env rest
      ⟨cb :: r.invoked, r.sunk, r.res, r.left⟩
    | .error msg =>
      match env.fromString msg with
      | .error e => ⟨[cb], [], .error e, rest⟩
      | .ok v =>
        let r := drainQueue env rest
        ⟨cb :: r.invoked, (v, env.sinkCall v) :: r.sunk, r.res, r.left⟩

/-- Result of one non-blocking, time-bounded pass over a single channel:
as `ChanRun`, plus the coarse-clock reading when the pass ends. -/
structure ChanRunB where
  invoked : List Callback
  sunk : SinkLog
  res : Except String Unit
  left : List Callback
  elapsed : Nat
deriving Repr

/-- Inner loop of `process_callbacks_for` (also of each channel inside
`process_all_callbacks_for`), started when the clock already reads `t`:
invoke the callback, report a failure as in `drainQueue`, then compare
`now.elapsed()` against the budget and stop as soon as it is strictly
larger.  The check happens only after an invocation, never before one. -/
def drainQueueFor (env : Env) (budget : Nat) : Nat → List Callback → ChanRunB
  | t, [] => ⟨[], [], .ok (), [], t⟩
  | t, cb :: rest =>
    let t2 := t + cb.cost
    match cb.outcome with
    | .ok _ =>
      if budget < t2 then ⟨[cb], [], .ok (), rest, t2⟩
      else
        let r := drainQueueFor env budget t2 rest
        ⟨cb :: r.invoked, r.sunk, r.res, r.left, r.elapsed⟩
    | .error msg =>
      match env.fromString msg with
      | .error e => ⟨[cb], [], .error e, rest, t2⟩
      | .ok v =>
        if budget < t2 then ⟨[cb], [(v, env.sinkCall v)], .ok (), rest, t2⟩
        else
          let r := drainQueueFor env budget t2 rest
          ⟨cb :: r.invoked, (v, env.sinkCall v) :: r.sunk, r.res, r.left, r.elapsed⟩

/-- Outcome of a drain operation.  `panicked` models the Rust panic of
`Proc::find(...).unwrap()` when the proc is absent (nothing has been
invoked at that point).  `running` means the fuel for blocking receives ran
out with the drain still inside a blocking wait.  `ret` is a normal return
carrying the engine's `DMResult`. -/
inductive DrainOut (α : Type) where
  | panicked : DrainOut α
  | running (invoked : List (String × Callback)) (sunk : SinkLog)
      (visited : List String) (reg : Registry) : DrainOut α
  | ret (invoked : List (String × Callback)) (sunk : SinkLog)
      (visited : List String) (res : Except String α) (reg : Registry) : DrainOut α
deriving Repr

/-- Invocation trace of a drain outcome. -/
def DrainOut.invoked {α : Type} : DrainOut α → List (String × Callback)
  | .panicked => []
  | .running i _ _ _ => i
  | .ret i _ _ _ _ => i

/-- Sink log of a drain outcome. -/
def DrainOut.sunk {α : Type} : DrainOut α → SinkLog
  | .panicked => []
  | .running _ s _ _ => s
  | .ret _ s _ _ _ => s

/-- Channels whose inner loop was entered. -/
def DrainOut.visited {α : Type} : DrainOut α → List String
  | .panicked => []
  | .running _ _ v _ => v
  | .ret _ _ v _ _ => v

/-- Returned `DMResult`, when the drain returned. -/
def DrainOut.resOut {α : Type} : DrainOut α → Option (Except String α)
  | .panicked => none
  | .running _ _ _ _ => none
  | .ret _ _ _ r _ => some r

/-- Registry state after the drain, when it did not panic. -/
def DrainOut.regOut {α : Type} : DrainOut α → Option Registry
  | .panicked => none
  | .running _ _ _ rg => some rg
  | .ret _ _ _ _ rg => some rg

/-- Whether the drain is still stuck inside a blocking receive. -/
def DrainOut.stillRunning {α : Type} : DrainOut α → Bool
  | .running _ _ _ _ => true
  | _ => false

/-- The drain operation `process_callbacks(id)` (drain-one-unbounded):
get-or-create the channel, look up and unwrap the stack-trace proc, then
run the non-blocking inner loop over the currently queued callbacks. -/
def processCallbacks (env : Env) (reg : Registry) (id : String) : DrainOut Unit :=
  let reg1 := registryInsert reg id
  if env.procFind stackTracePath then
    let r := drainQueue env (registryGet reg1 id)
    .ret (tagged id r.invoked) r.sunk [id] r.res (registrySet reg1 id r.left)
  else .panicked

/-- The drain operation `process_callbacks_for(id, duration)`
(drain-one-bounded): as `processCallbacks` but with the time-budget check
after each invocation; the returned boolean is `now.elapsed() > duration`
read when the loop ends. -/
def processCallbacksFor (env : Env) (budget : Nat) (reg : Registry) (id : String) :
    DrainOut Bool :=
  let reg1 := registryInsert reg id
  if env.procFind stackTracePath then
    let r := drainQueueFor env budget 0 (registryGet reg1 id)
    .ret (tagged id r.invoked) r.sunk [id]
      (match r.res with
       | .error e => .error e
       | .ok _ => .ok (decide (budget < r.elapsed)))
      (registrySet reg1 id r.left)
  else .panicked

/-- Accumulated outcome of `process_all_callbacks_for`'s labelled outer
loop over the registry entries, starting with the clock reading `t`. -/
structure AllRunB where
  invoked : List (String × Callback)
  sunk : SinkLog
  visited : List String
  res : Except String Unit
  reg : Registry
  elapsed : Nat
deriving Repr

/-- Outer loop of `process_all_callbacks_for`: drain each channel
non-blockingly; a conversion error propagates out of everything, and as
soon as the budget check fails the `break 'outer` abandons every remaining
channel. -/
def runChannelsFor (env : Env) (budget : Nat) : Nat → Registry → AllRunB
  | t, [] => ⟨[], [], [], .ok (), [], t⟩
  | t, (id, q) :: rest =>
    let r := drainQueueFor env budget t q
    match r.res with
    | .error e => ⟨tagged id r.invoked, r.sunk, [id], .error e, (id, r.left) :: rest, r.elapsed⟩
    | .ok _ =>
      if budget < r.elapsed then
        ⟨tagged id r.invoked, r.sunk, [id], .ok (), (id, r.left) :: rest, r.elapsed⟩
      else
        let s := runChannelsFor env budget r.elapsed rest
        ⟨tagged id r.invoked ++ s.invoked, r.sunk ++ s.sunk, id :: s.visited,
          s.res, (id, r.left) :: s.reg, s.elapsed⟩

/-- The drain operation `process_all_callbacks_for(duration)`
(drain-all-bounded). -/
def processAllCallbacksFor (env : Env) (budget : Nat) (reg : Registry) : DrainOut Bool :=
  if env.procFind stackTracePath then
    let s := runChannelsFor env budget 0 reg
    .ret s.invoked s.sunk s.visited
      (match s.res with
       | .error e => .error e
       | .ok _ => .ok (decide (budget < s.elapsed)))
      s.reg
  else .panicked

/-- Outcome of the blocking iteration (`for callback in receiver`) over one
channel.  The sender half of the channel lives in the registry forever, so
the iterator never ends by disconnection: the loop either runs out of fuel
while blocked or spinning (`blockedOut`) or is aborted by a propagated
message-conversion error (`errored`).  There is no normal-completion
outcome. -/
inductive ChanLoopOut where
  | blockedOut (invoked : List Callback) (sunk : SinkLog) (left : List Callback) : ChanLoopOut
  | errored (invoked : List Callback) (sunk : SinkLog) (e : String)
      (left : List Callback) : ChanLoopOut
deriving Repr

/-- Callbacks invoked before the blocking loop stopped. -/
def ChanLoopOut.invokedOf : ChanLoopOut → List Callback
  | .blockedOut i _ _ => i
  | .errored i _ _ _ => i

/-- Sink log of the blocking loop. -/
def ChanLoopOut.sunkOf : ChanLoopOut → SinkLog
  | .blockedOut _ s _ => s
  | .errored _ s _ _ => s

/-- Callbacks still queued when the blocking loop stopped. -/
def ChanLoopOut.leftOf : ChanLoopOut → List Callback
  | .blockedOut _ _ l => l
  | .errored _ _ _ l => l

/-- Prepend one handled callback (and its sink entries) to a loop outcome. -/
def ChanLoopOut.push (cb : Callback) (s : SinkLog) : ChanLoopOut → ChanLoopOut
  | .blockedOut i k l => .blockedOut (cb :: i) (s ++ k) l
  | .errored i k e l => .errored (cb :: i) (s ++ k) e l

/-- Blocking inner loop of `process_all_callbacks` on one channel, with no
concurrent producers.  Each receive attempt consumes one unit of fuel; a
receive on an empty queue blocks (modelled as retrying on the unchanged
empty queue), since the channel is never closed. -/
def chanLoopBlocking (env : Env) : Nat → List Callback → ChanLoopOut
  | 0, q => .blockedOut [] [] q
  | fuel + 1, [] => chanLoopBlocking env fuel []
  | fuel + 1, cb :: rest =>
    match cb.outcome with
    | .ok _ => (chanLoopBlocking env fuel rest).push cb []
    | .error msg =>
      match env.fromString msg with
      | .error e => .errored [cb] [] e rest
      | .ok v => (chanLoopBlocking env fuel rest).push cb [(v, env.sinkCall v)]

/-- The drain operation `process_all_callbacks()` (drain-all-blocking).
The outer `for entry in CALLBACK_CHANNELS.iter()` loop can move past a
channel only when that channel's blocking iteration ends, which (the
channel never being closed) happens only via the propagated conversion
error; hence with a non-empty registry the drain never gets past its first
channel, and with an empty registry it returns at once. -/
def processAllCallbacks (env : Env) (fuel : Nat) (reg : Registry) : DrainOut Unit :=
  if env.procFind stackTracePath then
    match reg with
    | [] => .ret [] [] [] (.ok ()) []
    | (id, q) :: rest =>
      match chanLoopBlocking env fuel q with
      | .blockedOut i k l => .running (tagged id i) k [id] ((id, l) :: rest)
      | .errored i k e l => .ret (tagged id i) k [id] (.error e) ((id, l) :: rest)
  else .panicked

/-- Host values as far as the dispatch hook observes them. -/
inductive HostValue where
  | null : HostValue
  | num (q : ℚ) : HostValue
  | str (s : String) : HostValue
deriving DecidableEq, Repr

/-- The auxtools `Value::as_string` conversion: succeeds exactly on
strings. -/
def HostValue.asString : HostValue → Except String String
  | .str s => .ok s
  | _ => .error "attempt to interpret non-string value as string"

/-- The auxtools `Value::as_number` conversion: succeeds exactly on
numbers (the host number, an `f32`, is carried exactly as a rational). -/
def HostValue.asNumber : HostValue → Except String ℚ
  | .num q => .ok q
  | _ => .error "attempt to interpret non-number value as number"

/-- Largest value of an unsigned 64-bit integer. -/
def u64Max : Nat := 2 ^ 64 - 1

/-- Rust's saturating float-to-integer cast `as u64` on the exact value of
the host number: truncation toward zero, clamped to `[0, u64Max]`. -/
def ratAsU64 (q : ℚ) : Nat :=
  if q < 0 then 0 else min (Int.toNat ⌊q⌋) u64Max

/-- The host value `Value::from(b)` built from a boolean. -/
def boolValue (b : Bool) : HostValue :=
  .num (if b then 1 else 0)

/-- Map the returned value of a drain outcome. -/
def mapHV {α : Type} (f : α → HostValue) : DrainOut α → DrainOut HostValue
  | .panicked => .panicked
  | .running i k v rg => .running i k v rg
  | .ret i k v r rg => .ret i k v (r.map f) rg

/-- The hook `_process_callbacks`, dispatching on the argument count:
0 arguments run the blocking all-channel drain; 1 argument drains the named
channel without a budget; 2 arguments first convert the second argument to
a millisecond budget (`as_number()? as u64`), then drain the named channel
if the first argument converts to a string and otherwise every channel;
any other count is the fixed usage error. -/
def dispatchProcessCallbacks (env : Env) (fuel : Nat) (reg : Registry)
    (args : List HostValue) : DrainOut HostValue :=
  match args with
  | [] => mapHV (fun _ => HostValue.null) (processAllCallbacks env fuel reg)
  | [a] =>
    match a.asString with
    | .error e => .ret [] [] [] (.error e) reg
    | .ok id => mapHV (fun _ => HostValue.null) (processCallbacks env reg id)
  | [a, b] =>
    match b.asNumber with
    | .error e => .ret [] [] [] (.error e) reg
    | .ok q =>
      match a.asString with
      | .ok id => mapHV boolValue (processCallbacksFor env (ratAsU64 q) reg id)
      | .error _ => mapHV boolValue (processAllCallbacksFor env (ratAsU64 q) reg)
  | _ => .ret [] [] []
      (.error "Invalid number of arguments for callback processing; must be 0, 1 or 2") reg

/-! ### Small helper notions used by several theorems -/

/-- Replace the recorded outcome of each sink call by what a different sink
behaviour `σ` would have produced. -/
def mapSinkLog (σ : String → Except String Unit) (k : SinkLog) : SinkLog :=
  k.map (fun p => (p.1, σ p.1))

/-- Total observed cost of every queued callback in the registry. -/
def totalCost (reg : Registry) : Nat :=
  (reg.map (fun e => costSum e.2)).sum

/-- Every queued callback of every channel, tagged, in registry iteration
order. -/
def allQueued : Registry → List (String × Callback)
  | [] => []
  | (id, q) :: rest => tagged id q ++ allQueued rest

/-! ### Registry lemmas -/

theorem registryGet_append (r1 r2 : Registry) (id : String) :
    registryGet (r1 ++ r2) id =
      if registryHas r1 id then registryGet r1 id else registryGet r2 id := by
  induction r1 with
  | nil => simp [registryGet, registryHas]
  | cons e rest ih =>
    by_cases h : e.1 == id <;> simp [registryGet, registryHas, h, ih]

theorem registryHas_false_get (reg : Registry) (id : String)
    (h : registryHas reg id = false) : registryGet reg id = [] := by
  induction reg with
  | nil => rfl
  | cons e rest ih =>
    simp only [registryHas, Bool.or_eq_false_iff] at h
    simp [registryGet, h.1, ih h.2]

theorem registryGet_insert (reg : Registry) (id : String) :
    registryGet (registryInsert reg id) id = registryGet reg id := by
  unfold registryInsert
  by_cases h : registryHas reg id = true
  · simp [h]
  · simp only [Bool.not_eq_true] at h
    simp [h, registryGet_append, registryGet, registryHas_false_get reg id h]

theorem registryHas_append (r1 r2 : Registry) (id : String) :
    registryHas (r1 ++ r2) id = (registryHas r1 id || registryHas r2 id) := by
  induction r1 with
  | nil => simp [registryHas]
  | cons e rest ih => simp [registryHas, ih, Bool.or_assoc]

theorem registryHas_insert (reg : Registry) (id : String) :
    registryHas (registryInsert reg id) id = true := by
  unfold registryInsert
  by_cases h : registryHas reg id = true
  · simp [h]
  · simp only [Bool.not_eq_true] at h
    simp [h, registryHas_append, registryHas]

theorem registryGet_set (reg : Registry) (id : String) (q : List Callback)
    (h : registryHas reg id = true) :
    registryGet (registrySet reg id q) id = q := by
  induction reg with
  | nil => simp [registryHas] at h
  | cons e rest ih =>
    by_cases he : e.1 == id
    · simp [registrySet, registryGet, he]
    · simp only [registryHas, he, Bool.false_or] at h
      simp [registrySet, registryGet, he, ih h]

/-! ### Trace bookkeeping lemmas -/

theorem map_snd_tagged (id : String) (l : List Callback) :
    (tagged id l).map Prod.snd = l := by
  simp [tagged, List.map_map]

theorem costSumT_tagged (id : String) (l : List Callback) :
    costSumT (tagged id l) = costSum l := by
  simp [costSumT, tagged, costSum, List.map_map]
  rfl

theorem costSumT_append (a b : List (String × Callback)) :
    costSumT (a ++ b) = costSumT a + costSumT b := by
  simp [costSumT]

theorem costSumT_nil : costSumT [] = 0 := rfl

theorem costSum_cons (cb : Callback) (l : List Callback) :
    costSum (cb :: l) = cb.cost + costSum l := by
  simp [costSum]

theorem costSum_nil : costSum [] = 0 := rfl

theorem withSink_procFind (e : Env) (σ : String → Except String Unit) :
    (e.withSink σ).procFind = e.procFind := rfl

theorem withSink_fromString (e : Env) (σ : String → Except String Unit) :
    (e.withSink σ).fromString = e.fromString := rfl

theorem withSink_sinkCall (e : Env) (σ : String → Except String Unit) :
    (e.withSink σ).sinkCall = σ := rfl

theorem mapSinkLog_fst (σ : String → Except String Unit) (k : SinkLog) :
    (mapSinkLog σ k).map Prod.fst = k.map Prod.fst := by
  simp [mapSinkLog, List.map_map]

theorem mapSinkLog_append (σ : String → Except String Unit) (a b : SinkLog) :
    mapSinkLog σ (a ++ b) = mapSinkLog σ a ++ mapSinkLog σ b := by
  simp [mapSinkLog]

theorem reportedMsgs_append (env : Env) (a b : List Callback) :
    reportedMsgs env (a ++ b) = reportedMsgs env a ++ reportedMsgs env b := by
  simp [reportedMsgs]

theorem filter_tagged_self (id : String) (l : List Callback) :
    (tagged id l).filter (fun p => p.1 == id) = tagged id l := by
  simp [tagged, List.filter_map, Function.comp_def]

theorem filter_tagged_other (id jd : String) (l : List Callback)
    (h : (id == jd) = false) :
    (tagged id l).filter (fun p => p.1 == jd) = [] := by
  simp [tagged, List.filter_map, Function.comp_def, h]

/-! ### Lemmas on the unbounded single-channel pass -/

theorem drainQueue_split (env : Env) (q : List Callback) :
    (drainQueue env q).invoked ++ (drainQueue env q).left = q := by
  induction q with
  | nil => rfl
  | cons cb rest ih =>
    cases hcb : cb.outcome with
    | ok u => simp [drainQueue, hcb, ih]
    | error m =>
      cases hfs : env.fromString m with
      | ok v => simp [drainQueue, hcb, hfs, ih]
      | error e => simp [drainQueue, hcb, hfs]

theorem drainQueue_convOk (env : Env) (q : List Callback)
    (hC : ∀ m, exOk (env.fromString m) = true) :
    (drainQueue env q).invoked = q ∧ (drainQueue env q).left = [] ∧
      (drainQueue env q).res = .ok () := by
  induction q with
  | nil => exact ⟨rfl, rfl, rfl⟩
  | cons cb rest ih =>
    cases hcb : cb.outcome with
    | ok u => simp [drainQueue, hcb, ih]
    | error m =>
      cases hfs : env.fromString m with
      | ok v => simp [drainQueue, hcb, hfs, ih]
      | error e => have := hC m; rw [hfs] at this; simp [exOk] at this

theorem drainQueue_withSink (env : Env) (σ : String → Except String Unit)
    (q : List Callback) :
    drainQueue (env.withSink σ) q =
      ⟨(drainQueue env q).invoked, mapSinkLog σ (drainQueue env q).sunk,
        (drainQueue env q).res, (drainQueue env q).left⟩ := by
  induction q with
  | nil => rfl
  | cons cb rest ih =>
    cases hcb : cb.outcome with
    | ok u => simp [drainQueue, withSink_fromString, withSink_sinkCall, hcb, ih]
    | error m =>
      cases hfs : env.fromString m with
      | ok v =>
        simp [drainQueue, withSink_fromString, withSink_sinkCall, hcb, hfs, ih, mapSinkLog]
      | error e =>
        simp [drainQueue, withSink_fromString, withSink_sinkCall, hcb, hfs, mapSinkLog]

theorem drainQueue_sunk_fst (env : Env) (q : List Callback) :
    (drainQueue env q).sunk.map Prod.fst =
      reportedMsgs env (drainQueue env q).invoked := by
  induction q with
  | nil => rfl
  | cons cb rest ih =>
    cases hcb : cb.outcome with
    | ok u => simp [drainQueue, reportedMsgs, hcb, ih]
    | error m =>
      cases hfs : env.fromString m with
      | ok v => simp [drainQueue, reportedMsgs, hcb, hfs, ih]
      | error e => simp [drainQueue, reportedMsgs, hcb, hfs]

/-! ### Lemmas on the bounded single-channel pass -/

theorem drainQueueFor_split (env : Env) (b : Nat) (t : Nat) (q : List Callback) :
    (drainQueueFor env b t q).invoked ++ (drainQueueFor env b t q).left = q := by
  induction q generalizing t with
  | nil => rfl
  | cons cb rest ih =>
    cases hcb : cb.outcome with
    | ok u =>
      by_cases hb : b < t + cb.cost <;> simp [drainQueueFor, hcb, hb, ih]
    | error m =>
      cases hfs : env.fromString m with
      | ok v =>
        by_cases hb : b < t + cb.cost <;> simp [drainQueueFor, hcb, hfs, hb, ih]
      | error e => simp [drainQueueFor, hcb, hfs]

theorem drainQueueFor_elapsed (env : Env) (b : Nat) (t : Nat) (q : List Callback) :
    (drainQueueFor env b t q).elapsed =
      t + costSum (drainQueueFor env b t q).invoked := by
  induction q generalizing t with
  | nil => simp [drainQueueFor, costSum]
  | cons cb rest ih =>
    cases hcb : cb.outcome with
    | ok u =>
      by_cases hb : b < t + cb.cost <;>
        simp [drainQueueFor, hcb, hb, ih, costSum_cons, costSum_nil] <;> omega
    | error m =>
      cases hfs : env.fromString m with
      | ok v =>
        by_cases hb : b < t + cb.cost <;>
          simp [drainQueueFor, hcb, hfs, hb, ih, costSum_cons, costSum_nil] <;> omega
      | error e => simp [drainQueueFor, hcb, hfs, costSum_cons, costSum_nil]

theorem drainQueueFor_budget (env : Env) (b : Nat) (t : Nat) (q : List Callback) :
    ∀ n, 0 < n → n < (drainQueueFor env b t q).invoked.length →
      t + costSum ((drainQueueFor env b t q).invoked.take n) ≤ b := by
  induction q generalizing t with
  | nil => intro n hn hlen; simp [drainQueueFor] at hlen
  | cons cb rest ih =>
    intro n hn hlen
    cases hcb : cb.outcome with
    | ok u =>
      by_cases hb : b < t + cb.cost
      · simp [drainQueueFor, hcb, hb] at hlen; omega
      · simp only [drainQueueFor, hcb, hb, if_neg, ite_false] at hlen ⊢
        simp only [List.length_cons] at hlen
        cases n with
        | zero => omega
        | succ m =>
          simp only [List.take_succ_cons, costSum_cons]
          cases Nat.eq_zero_or_pos m with
          | inl h0 =>
            subst h0; simp [costSum]; omega
          | inr hpos =>
            have := ih (t + cb.cost) m hpos (by omega)
            omega
    | error m =>
      cases hfs : env.fromString m with
      | ok v =>
        by_cases hb : b < t + cb.cost
        · simp [drainQueueFor, hcb, hfs, hb] at hlen; omega
        · simp only [drainQueueFor, hcb, hfs, hb, if_neg, ite_false] at hlen ⊢
          simp only [List.length_cons] at hlen
          cases n with
          | zero => omega
          | succ k =>
            simp only [List.take_succ_cons, costSum_cons]
            cases Nat.eq_zero_or_pos k with
            | inl h0 =>
              subst h0; simp [costSum]; omega
            | inr hpos =>
              have := ih (t + cb.cost) k hpos (by omega)
              omega
      | error e => simp [drainQueueFor, hcb, hfs] at hlen; omega

theorem drainQueueFor_convOk (env : Env) (b : Nat) (t : Nat) (q : List Callback)
    (hC : ∀ m, exOk (env.fromString m) = true) :
    (drainQueueFor env b t q).res = .ok () := by
  induction q generalizing t with
  | nil => rfl
  | cons cb rest ih =>
    cases hcb : cb.outcome with
    | ok u =>
      by_cases hb : b < t + cb.cost <;> simp [drainQueueFor, hcb, hb, ih]
    | error m =>
      cases hfs : env.fromString m with
      | ok v =>
        by_cases hb : b < t + cb.cost <;> simp [drainQueueFor, hcb, hfs, hb, ih]
      | error e => have := hC m; rw [hfs] at this; simp [exOk] at this

theorem drainQueueFor_all (env : Env) (b : Nat) (t : Nat) (q : List Callback)
    (hC : ∀ m, exOk (env.fromString m) = true) (h : t + costSum q ≤ b) :
    (drainQueueFor env b t q).invoked = q ∧ (drainQueueFor env b t q).left = [] ∧
      (drainQueueFor env b t q).elapsed = t + costSum q := by
  induction q generalizing t with
  | nil => exact ⟨rfl, rfl, by simp [drainQueueFor, costSum]⟩
  | cons cb rest ih =>
    rw [costSum_cons] at h
    have hb : ¬ b < t + cb.cost := by omega
    have hrest := ih (t + cb.cost) (by omega)
    cases hcb : cb.outcome with
    | ok u =>
      simp [drainQueueFor, hcb, hb, hrest.1, hrest.2.1, hrest.2.2, costSum_cons]
      omega
    | error m =>
      cases hfs : env.fromString m with
      | ok v =>
        simp [drainQueueFor, hcb, hfs, hb, hrest.1, hrest.2.1, hrest.2.2, costSum_cons]
        omega
      | error e => have := hC m; rw [hfs] at this; simp [exOk] at this

theorem drainQueueFor_withSink (env : Env) (σ : String → Except String Unit)
    (b : Nat) (t : Nat) (q : List Callback) :
    drainQueueFor (env.withSink σ) b t q =
      ⟨(drainQueueFor env b t q).invoked, mapSinkLog σ (drainQueueFor env b t q).sunk,
        (drainQueueFor env b t q).res, (drainQueueFor env b t q).left,
        (drainQueueFor env b t q).elapsed⟩ := by
  induction q generalizing t with
  | nil => rfl
  | cons cb rest ih =>
    cases hcb : cb.outcome with
    | ok u =>
      by_cases hb : b < t + cb.cost <;>
        simp [drainQueueFor, withSink_fromString, withSink_sinkCall, hcb, hb, ih, mapSinkLog]
    | error m =>
      cases hfs : env.fromString m with
      | ok v =>
        by_cases hb : b < t + cb.cost <;>
          simp [drainQueueFor, withSink_fromString, withSink_sinkCall, hcb, hfs, hb, ih,
            mapSinkLog]
      | error e =>
        simp [drainQueueFor, withSink_fromString, withSink_sinkCall, hcb, hfs, mapSinkLog]

theorem drainQueueFor_sunk_fst (env : Env) (b : Nat) (t : Nat) (q : List Callback) :
    (drainQueueFor env b t q).sunk.map Prod.fst =
      reportedMsgs env (drainQueueFor env b t q).invoked := by
  induction q generalizing t with
  | nil => rfl
  | cons cb rest ih =>
    cases hcb : cb.outcome with
    | ok u =>
      by_cases hb : b < t + cb.cost <;>
        simp [drainQueueFor, reportedMsgs, hcb, hb, ih]
    | error m =>
      cases hfs : env.fromString m with
      | ok v =>
        by_cases hb : b < t + cb.cost <;>
          simp [drainQueueFor, reportedMsgs, hcb, hfs, hb, ih]
      | error e => simp [drainQueueFor, reportedMsgs, hcb, hfs]

/-! ### Lemmas on the bounded all-channel pass -/

theorem totalCost_cons (id : String) (q : List Callback) (rest : Registry) :
    totalCost ((id, q) :: rest) = costSum q + totalCost rest := by
  simp [totalCost]

theorem runChannelsFor_elapsed (env : Env) (b : Nat) (t : Nat) (reg : Registry) :
    (runChannelsFor env b t reg).elapsed =
      t + costSumT (runChannelsFor env b t reg).invoked := by
  induction reg generalizing t with
  | nil => simp [runChannelsFor, costSumT]
  | cons e rest ih =>
    obtain ⟨id, q⟩ := e
    cases hres : (drainQueueFor env b t q).res with
    | error e2 =>
      simp [runChannelsFor, hres, costSumT_tagged, drainQueueFor_elapsed]
    | ok u =>
      by_cases hbe : b < (drainQueueFor env b t q).elapsed
      · simp only [runChannelsFor, hres, hbe, ite_true]
        simp [costSumT_tagged, drainQueueFor_elapsed]
      · simp only [runChannelsFor, hres, hbe, ite_false]
        simp only [costSumT_append, costSumT_tagged, ih]
        have := drainQueueFor_elapsed env b t q
        omega

theorem runChannelsFor_budget (env : Env) (b : Nat) (t : Nat) (reg : Registry)
    (ht : t ≤ b) :
    ∀ n, n < (runChannelsFor env b t reg).invoked.length →
      t + costSumT ((runChannelsFor env b t reg).invoked.take n) ≤ b := by
  induction reg generalizing t with
  | nil => intro n hn; simp [runChannelsFor] at hn
  | cons e rest ih =>
    obtain ⟨id, q⟩ := e
    intro n hn
    have hsingle : ∀ m, m < (drainQueueFor env b t q).invoked.length →
        t + costSum ((drainQueueFor env b t q).invoked.take m) ≤ b := by
      intro m hm
      cases Nat.eq_zero_or_pos m with
      | inl h0 => subst h0; simpa [costSum] using ht
      | inr hpos => exact drainQueueFor_budget env b t q m hpos hm
    cases hres : (drainQueueFor env b t q).res with
    | error e2 =>
      simp only [runChannelsFor, hres] at hn ⊢
      simp only [tagged, List.length_map] at hn
      rw [tagged, ← List.map_take, ← tagged, costSumT_tagged]
      exact hsingle n (by simpa using hn)
    | ok u =>
      by_cases hbe : b < (drainQueueFor env b t q).elapsed
      · simp only [runChannelsFor, hres, hbe, ite_true] at hn ⊢
        simp only [tagged, List.length_map] at hn
        rw [tagged, ← List.map_take, ← tagged, costSumT_tagged]
        exact hsingle n (by simpa using hn)
      · simp only [runChannelsFor, hres, hbe, ite_false] at hn ⊢
        have hel := drainQueueFor_elapsed env b t q
        have hbe2 : (drainQueueFor env b t q).elapsed ≤ b := by omega
        set a := tagged id (drainQueueFor env b t q).invoked with ha
        have hlen : a.length = (drainQueueFor env b t q).invoked.length := by
          simp [ha, tagged]
        rw [List.take_append_eq_append_take, costSumT_append]
        by_cases hn1 : n ≤ a.length
        · have htake0 : (runChannelsFor env b (drainQueueFor env b t q).elapsed rest).invoked.take
              (n - a.length) = [] := by
            have : n - a.length = 0 := by omega
            simp [this]
          rw [htake0, costSumT_nil, Nat.add_zero]
          by_cases hn2 : n < a.length
          · rw [ha, tagged, ← List.map_take, ← tagged, costSumT_tagged]
            exact hsingle n (by omega)
          · have hna : n = a.length := by omega
            have : a.take n = a := List.take_of_length_le (by omega)
            rw [this, ha, costSumT_tagged]
            omega
        · have hta : a.take n = a := List.take_of_length_le (by omega)
          rw [hta]
          have hacost : costSumT a = costSum (drainQueueFor env b t q).invoked := by
            rw [ha, costSumT_tagged]
          rw [hacost]
          have hih := ih ((drainQueueFor env b t q).elapsed) hbe2 (n - a.length)
          simp only [List.length_append, hlen] at hn
          have hmlt : n - a.length <
              (runChannelsFor env b (drainQueueFor env b t q).elapsed rest).invoked.length := by
            omega
          have := hih hmlt
          omega

theorem runChannelsFor_convOk_res (env : Env) (b : Nat) (t : Nat) (reg : Registry)
    (hC : ∀ m, exOk (env.fromString m) = true) :
    (runChannelsFor env b t reg).res = .ok () := by
  induction reg generalizing t with
  | nil => rfl
  | cons e rest ih =>
    obtain ⟨id, q⟩ := e
    have hok := drainQueueFor_convOk env b t q hC
    by_cases hbe : b < (drainQueueFor env b t q).elapsed <;>
      simp [runChannelsFor, hok, hbe, ih]

theorem runChannelsFor_withSink (env : Env) (σ : String → Except String Unit)
    (b : Nat) (t : Nat) (reg : Registry) :
    runChannelsFor (env.withSink σ) b t reg =
      ⟨(runChannelsFor env b t reg).invoked, mapSinkLog σ (runChannelsFor env b t reg).sunk,
        (runChannelsFor env b t reg).visited, (runChannelsFor env b t reg).res,
        (runChannelsFor env b t reg).reg, (runChannelsFor env b t reg).elapsed⟩ := by
  induction reg generalizing t with
  | nil => rfl
  | cons e rest ih =>
    obtain ⟨id, q⟩ := e
    cases hres : (drainQueueFor env b t q).res with
    | error e2 =>
      simp [runChannelsFor, drainQueueFor_withSink, hres]
    | ok u =>
      by_cases hbe : b < (drainQueueFor env b t q).elapsed
      · simp [runChannelsFor, drainQueueFor_withSink, hres, hbe]
      · simp [runChannelsFor, drainQueueFor_withSink, hres, hbe, ih, mapSinkLog_append]

theorem runChannelsFor_sunk_fst (env : Env) (b : Nat) (t : Nat) (reg : Registry) :
    (runChannelsFor env b t reg).sunk.map Prod.fst =
      reportedMsgs env ((runChannelsFor env b t reg).invoked.map Prod.snd) := by
  induction reg generalizing t with
  | nil => rfl
  | cons e rest ih =>
    obtain ⟨id, q⟩ := e
    cases hres : (drainQueueFor env b t q).res with
    | error e2 =>
      simp [runChannelsFor, hres, drainQueueFor_sunk_fst, map_snd_tagged]
    | ok u =>
      by_cases hbe : b < (drainQueueFor env b t q).elapsed
      · simp [runChannelsFor, hres, hbe, drainQueueFor_sunk_fst, map_snd_tagged]
      · simp [runChannelsFor, hres, hbe, ih, drainQueueFor_sunk_fst, map_snd_tagged,
          reportedMsgs_append]

theorem runChannelsFor_keys (env : Env) (b : Nat) (t : Nat) (reg : Registry) :
    ∀ p ∈ (runChannelsFor env b t reg).invoked, p.1 ∈ reg.map Prod.fst := by
  induction reg generalizing t with
  | nil => intro p hp; simp [runChannelsFor] at hp
  | cons e rest ih =>
    obtain ⟨id, q⟩ := e
    intro p hp
    cases hres : (drainQueueFor env b t q).res with
    | error e2 =>
      simp only [runChannelsFor, hres] at hp
      simp only [tagged, List.mem_map] at hp
      obtain ⟨cb, _, hcb⟩ := hp
      simp [← hcb]
    | ok u =>
      by_cases hbe : b < (drainQueueFor env b t q).elapsed
      · simp only [runChannelsFor, hres, hbe, ite_true] at hp
        simp only [tagged, List.mem_map] at hp
        obtain ⟨cb, _, hcb⟩ := hp
        simp [← hcb]
      · simp only [runChannelsFor, hres, hbe, ite_false, List.mem_append] at hp
        cases hp with
        | inl h1 =>
          simp only [tagged, List.mem_map] at h1
          obtain ⟨cb, _, hcb⟩ := h1
          simp [← hcb]
        | inr h2 =>
          have := ih ((drainQueueFor env b t q).elapsed) p h2
          simp [this]

theorem runChannelsFor_all (env : Env) (b : Nat) (t : Nat) (reg : Registry)
    (hC : ∀ m, exOk (env.fromString m) = true) (h : t + totalCost reg ≤ b) :
    (runChannelsFor env b t reg).invoked = allQueued reg := by
  induction reg generalizing t with
  | nil => rfl
  | cons e rest ih =>
    obtain ⟨id, q⟩ := e
    rw [totalCost_cons] at h
    obtain ⟨hinv, _, hel⟩ := drainQueueFor_all env b t q hC (by omega)
    have hres := drainQueueFor_convOk env b t q hC
    have hbe : ¬ b < (drainQueueFor env b t q).elapsed := by omega
    simp only [runChannelsFor, hres, hbe, ite_false]
    rw [hinv, hel, allQueued]
    congr 1
    exact ih (t + costSum q) (by omega)

theorem runChannelsFor_fifo (env : Env) (b : Nat) (t : Nat) (reg : Registry) (id : String)
    (hnd : (reg.map Prod.fst).Nodup) :
    ((runChannelsFor env b t reg).invoked.filter (fun p => p.1 == id)).map Prod.snd
      <+: registryGet reg id := by
  induction reg generalizing t with
  | nil => simp [runChannelsFor, registryGet]
  | cons e rest ih =>
    obtain ⟨id0, q⟩ := e
    simp only [List.map_cons, List.nodup_cons] at hnd
    by_cases hj : (id0 == id) = true
    · have hid : id0 = id := by simpa using hj
      subst hid
      have hget : registryGet ((id0, q) :: rest) id0 = q := by
        simp [registryGet]
      rw [hget]
      cases hres : (drainQueueFor env b t q).res with
      | error e2 =>
        simp only [runChannelsFor, hres]
        rw [filter_tagged_self, map_snd_tagged]
        exact ⟨(drainQueueFor env b t q).left, drainQueueFor_split env b t q⟩
      | ok u =>
        by_cases hbe : b < (drainQueueFor env b t q).elapsed
        · simp only [runChannelsFor, hres, hbe, ite_true]
          rw [filter_tagged_self, map_snd_tagged]
          exact ⟨(drainQueueFor env b t q).left, drainQueueFor_split env b t q⟩
        · simp only [runChannelsFor, hres, hbe, ite_false]
          rw [List.filter_append, filter_tagged_self]
          have hnil : (runChannelsFor env b ((drainQueueFor env b t q).elapsed) rest).invoked.filter
              (fun p => p.1 == id0) = [] := by
            rw [List.filter_eq_nil_iff]
            intro p hp
            intro hpid
            have hkey := runChannelsFor_keys env b ((drainQueueFor env b t q).elapsed) rest p hp
            have : p.1 = id0 := by simpa using hpid
            rw [this] at hkey
            exact hnd.1 hkey
          rw [hnil, List.append_nil, map_snd_tagged]
          exact ⟨(drainQueueFor env b t q).left, drainQueueFor_split env b t q⟩
    · have hj2 : (id0 == id) = false := by simpa using hj
      have hget : registryGet ((id0, q) :: rest) id = registryGet rest id := by
        simp [registryGet, hj2]
      rw [hget]
      cases hres : (drainQueueFor env b t q).res with
      | error e2 =>
        simp only [runChannelsFor, hres]
        rw [filter_tagged_other id0 id _ hj2]
        simp
      | ok u =>
        by_cases hbe : b < (drainQueueFor env b t q).elapsed
        · simp only [runChannelsFor, hres, hbe, ite_true]
          rw [filter_tagged_other id0 id _ hj2]
          simp
        · simp only [runChannelsFor, hres, hbe, ite_false]
          rw [List.filter_append, filter_tagged_other id0 id _ hj2, List.nil_append]
          exact ih ((drainQueueFor env b t q).elapsed) hnd.2

/-! ### Lemmas on the blocking single-channel loop -/

/-- Replace the recorded sink outcomes of a blocking-loop result. -/
def mapSinkChan (σ : String → Except String Unit) : ChanLoopOut → ChanLoopOut
  | .blockedOut i k l => .blockedOut i (mapSinkLog σ k) l
  | .errored i k e l => .errored i (mapSinkLog σ k) e l

theorem push_invokedOf (cb : Callback) (s : SinkLog) (o : ChanLoopOut) :
    (o.push cb s).invokedOf = cb :: o.invokedOf := by
  cases o <;> rfl

theorem push_leftOf (cb : Callback) (s : SinkLog) (o : ChanLoopOut) :
    (o.push cb s).leftOf = o.leftOf := by
  cases o <;> rfl

theorem push_sunkOf (cb : Callback) (s : SinkLog) (o : ChanLoopOut) :
    (o.push cb s).sunkOf = s ++ o.sunkOf := by
  cases o <;> rfl

theorem mapSinkChan_push (σ : String → Except String Unit) (cb : Callback)
    (s : SinkLog) (o : ChanLoopOut) :
    mapSinkChan σ (o.push cb s) = (mapSinkChan σ o).push cb (mapSinkLog σ s) := by
  cases o <;> simp [mapSinkChan, ChanLoopOut.push, mapSinkLog_append]

theorem chanLoop_empty (env : Env) (fuel : Nat) :
    chanLoopBlocking env fuel [] = .blockedOut [] [] [] := by
  induction fuel with
  | zero => rfl
  | succ n ih => simpa [chanLoopBlocking] using ih

theorem chanLoop_split (env : Env) (fuel : Nat) (q : List Callback) :
    (chanLoopBlocking env fuel q).invokedOf ++ (chanLoopBlocking env fuel q).leftOf = q := by
  induction fuel generalizing q with
  | zero => rfl
  | succ n ih =>
    cases q with
    | nil => simp [chanLoop_empty, ChanLoopOut.invokedOf, ChanLoopOut.leftOf]
    | cons cb rest =>
      cases hcb : cb.outcome with
      | ok u =>
        simp [chanLoopBlocking, hcb, push_invokedOf, push_leftOf, ih rest]
      | error m =>
        cases hfs : env.fromString m with
        | ok v =>
          simp [chanLoopBlocking, hcb, hfs, push_invokedOf, push_leftOf, ih rest]
        | error e =>
          simp [chanLoopBlocking, hcb, hfs, ChanLoopOut.invokedOf, ChanLoopOut.leftOf]

theorem chanLoop_all (env : Env) (fuel : Nat) (q : List Callback)
    (hC : ∀ m, exOk (env.fromString m) = true) (h : q.length ≤ fuel) :
    (chanLoopBlocking env fuel q).invokedOf = q := by
  induction fuel generalizing q with
  | zero =>
    have : q = [] := List.length_eq_zero.mp (Nat.le_zero.mp h)
    subst this; rfl
  | succ n ih =>
    cases q with
    | nil => simp [chanLoop_empty, ChanLoopOut.invokedOf]
    | cons cb rest =>
      simp only [List.length_cons, Nat.succ_le_succ_iff] at h
      cases hcb : cb.outcome with
      | ok u => simp [chanLoopBlocking, hcb, push_invokedOf, ih rest h]
      | error m =>
        cases hfs : env.fromString m with
        | ok v => simp [chanLoopBlocking, hcb, hfs, push_invokedOf, ih rest h]
        | error e => have := hC m; rw [hfs] at this; simp [exOk] at this

theorem chanLoop_withSink (env : Env) (σ : String → Except String Unit)
    (fuel : Nat) (q : List Callback) :
    chanLoopBlocking (env.withSink σ) fuel q =
      mapSinkChan σ (chanLoopBlocking env fuel q) := by
  induction fuel generalizing q with
  | zero => rfl
  | succ n ih =>
    cases q with
    | nil => simp [chanLoopBlocking, ih]
    | cons cb rest =>
      cases hcb : cb.outcome with
      | ok u =>
        simp [chanLoopBlocking, hcb, ih, mapSinkChan_push, mapSinkLog]
      | error m =>
        cases hfs : env.fromString m with
        | ok v =>
          simp [chanLoopBlocking, withSink_fromString, withSink_sinkCall, hcb, hfs, ih,
            mapSinkChan_push, mapSinkLog]
        | error e =>
          simp [chanLoopBlocking, withSink_fromString, hcb, hfs, mapSinkChan, mapSinkLog]

theorem chanLoop_sunk_fst (env : Env) (fuel : Nat) (q : List Callback) :
    (chanLoopBlocking env fuel q).sunkOf.map Prod.fst =
      reportedMsgs env (chanLoopBlocking env fuel q).invokedOf := by
  induction fuel generalizing q with
  | zero => rfl
  | succ n ih =>
    cases q with
    | nil => simp [chanLoop_empty, ChanLoopOut.sunkOf, ChanLoopOut.invokedOf, reportedMsgs]
    | cons cb rest =>
      cases hcb : cb.outcome with
      | ok u =>
        simp [chanLoopBlocking, hcb, push_invokedOf, push_sunkOf, ih rest, reportedMsgs]
      | error m =>
        cases hfs : env.fromString m with
        | ok v =>
          simp [chanLoopBlocking, hcb, hfs, push_invokedOf, push_sunkOf, ih rest, reportedMsgs]
        | error e =>
          simp [chanLoopBlocking, hcb, hfs, ChanLoopOut.sunkOf, ChanLoopOut.invokedOf,
            reportedMsgs]

/-! ### Concrete fixtures used by witnesses and counterexamples -/

/-- Environment in which the stack-trace proc exists, every message
converts to a host string, and the sink always succeeds. -/
def envAll : Env := ⟨fun _ => true, fun m => .ok m, fun _ => .ok ()⟩

/-- Environment in which `Proc::find` fails for every path. -/
def envNoProc : Env := ⟨fun _ => false, fun m => .ok m, fun _ => .ok ()⟩

/-- Environment in which `Value::from_string` always fails (as the real
conversion does on a message containing an interior NUL byte). -/
def envConvFail : Env := ⟨fun _ => true, fun _ => .error "string conversion failed", fun _ => .ok ()⟩

def regW1 : Registry := [("a", [⟨1, .ok (), 1⟩, ⟨2, .error "x", 1⟩]), ("b", [⟨3, .ok (), 1⟩])]

def regW2 : Registry := [("c", [⟨1, .ok (), 0⟩, ⟨2, .error "m", 0⟩])]

def regBad2 : Registry := [("n", [⟨1, .error "bad", 0⟩, ⟨2, .ok (), 0⟩])]

def regZ : Registry := [("z", [⟨1, .ok (), 0⟩, ⟨2, .ok (), 0⟩])]

def regW3 : Registry := [("p", [⟨1, .ok (), 1⟩, ⟨2, .ok (), 1⟩])]

def regW4 : Registry := [("d", [⟨1, .ok (), 1⟩]), ("e", [⟨2, .ok (), 1⟩])]

def cbBadMsg : Callback := ⟨1, .error "boom", 0⟩

def cbAfterBad : Callback := ⟨2, .ok (), 0⟩

def regBad : Registry := [("w", [cbBadMsg, cbAfterBad])]

def regW6 : Registry := [("u", [⟨1, .error "oops", 0⟩, ⟨2, .ok (), 0⟩]), ("v", [⟨3, .ok (), 0⟩])]

def regW7 : Registry := [("k", [⟨1, .ok (), 0⟩])]

def regW8 : Registry := [("emptyc", [])]

/-! ### Claim theorems -/

/-- C1: within a single channel, every drain operation invokes callbacks in
exactly the order they were enqueued (FIFO).  For each of the four drains,
the sequence of invocations attributed to channel `id` is a prefix of that
channel's queue (a proper prefix only when a budget, fuel exhaustion or a
propagated message-conversion error stops the drain early), hence in exact
enqueue order.  The all-bounded part assumes the registry iteration shows
each channel id once, as a `DashMap` does. -/
theorem fifo_per_channel (env : Env) (reg : Registry) (id : String) (budget fuel : Nat) :
    ((processCallbacks env reg id).invoked.map Prod.snd <+: registryGet reg id) ∧
    ((processCallbacksFor env budget reg id).invoked.map Prod.snd <+: registryGet reg id) ∧
    ((reg.map Prod.fst).Nodup →
      ((processAllCallbacksFor env budget reg).invoked.filter (fun p => p.1 == id)).map Prod.snd
        <+: registryGet reg id) ∧
    (((processAllCallbacks env fuel reg).invoked.filter (fun p => p.1 == id)).map Prod.snd
      <+: registryGet reg id) := by
  refine ⟨?_, ?_, ?_, ?_⟩
  · by_cases hF : env.procFind stackTracePath
    · simp only [processCallbacks, hF, if_true, DrainOut.invoked]
      rw [map_snd_tagged, registryGet_insert]
      exact ⟨_, drainQueue_split env _⟩
    · simp only [processCallbacks, hF, if_false, DrainOut.invoked, List.map_nil]
      exact List.nil_prefix
  · by_cases hF : env.procFind stackTracePath
    · simp only [processCallbacksFor, hF, if_true, DrainOut.invoked]
      rw [map_snd_tagged, registryGet_insert]
      exact ⟨_, drainQueueFor_split env budget 0 _⟩
    · simp only [processCallbacksFor, hF, if_false, DrainOut.invoked, List.map_nil]
      exact List.nil_prefix
  · intro hnd
    by_cases hF : env.procFind stackTracePath
    · simp only [processAllCallbacksFor, hF, if_true, DrainOut.invoked]
      exact runChannelsFor_fifo env budget 0 reg id hnd
    · simp only [processAllCallbacksFor, hF, if_false, DrainOut.invoked, List.filter_nil,
        List.map_nil]
      exact List.nil_prefix
  · by_cases hF : env.procFind stackTracePath
    · cases reg with
      | nil =>
        simp [processAllCallbacks, hF, DrainOut.invoked, registryGet, List.nil_prefix]
      | cons e rest =>
        obtain ⟨id0, q⟩ := e
        have hsplit := chanLoop_split env fuel q
        by_cases hj : (id0 == id) = true
        · have hid : id0 = id := by simpa using hj
          subst hid
          have hget : registryGet ((id0, q) :: rest) id0 = q := by simp [registryGet]
          rw [hget]
          cases hcl : chanLoopBlocking env fuel q with
          | blockedOut i k l =>
            simp only [processAllCallbacks, hF, if_true, hcl, DrainOut.invoked]
            rw [filter_tagged_self, map_snd_tagged]
            rw [hcl] at hsplit
            exact ⟨l, hsplit⟩
          | errored i k e2 l =>
            simp only [processAllCallbacks, hF, if_true, hcl, DrainOut.invoked]
            rw [filter_tagged_self, map_snd_tagged]
            rw [hcl] at hsplit
            exact ⟨l, hsplit⟩
        · have hj2 : (id0 == id) = false := by simpa using hj
          have hget : registryGet ((id0, q) :: rest) id = registryGet rest id := by
            simp [registryGet, hj2]
          rw [hget]
          cases hcl : chanLoopBlocking env fuel q with
          | blockedOut i k l =>
            simp only [processAllCallbacks, hF, if_true, hcl, DrainOut.invoked]
            rw [filter_tagged_other id0 id _ hj2]
            exact List.nil_prefix
          | errored i k e2 l =>
            simp only [processAllCallbacks, hF, if_true, hcl, DrainOut.invoked]
            rw [filter_tagged_other id0 id _ hj2]
            exact List.nil_prefix
    · simp only [processAllCallbacks, hF, if_false, DrainOut.invoked, List.filter_nil,
        List.map_nil]
      exact List.nil_prefix

/-- C1 witness: concrete instantiation of the all-bounded conjunct, with its
key-uniqueness hypothesis discharged on a two-channel registry. -/
theorem fifo_per_channel_witness :
    (regW1.map Prod.fst).Nodup ∧
    (((processAllCallbacksFor envAll 3 regW1).invoked.filter (fun p => p.1 == "a")).map Prod.snd
      <+: registryGet regW1 "a") :=
  ⟨by decide, (fifo_per_channel envAll regW1 "a" 3 2).2.2.1 (by decide)⟩

/-- C2 counterexample: the report site
`stack_trace.call(&[&Value::from_string(e.message.as_str())?])` propagates
a message-conversion failure out of `process_callbacks` through the `?`
(realizable: the real conversion fails on a message with an interior NUL
byte).  On a channel holding two callbacks whose first fails with such a
message, the drain invokes only one of the two and leaves the channel
non-empty, refuting the claim as stated at this input. -/
theorem drain_one_unbounded_claim_refuted :
    (registryGet regBad2 "n").length = 2 ∧
    (processCallbacks envConvFail regBad2 "n").invoked.length = 1 ∧
    registryGet ((processCallbacks envConvFail regBad2 "n").regOut.getD []) "n" ≠ [] := by
  refine ⟨by decide, by decide, by decide⟩

/-- C2 (amended): with the stack-trace proc present and every failure
message convertible to a host string (otherwise the propagated conversion
error aborts the drain early, see the counterexample),
`process_callbacks(id)` on a channel holding `N` queued callbacks invokes
exactly those `N` callbacks (the whole queue, in order), leaves the
channel empty, and an immediately following second call invokes
nothing. -/
theorem drain_one_unbounded_exact (env : Env) (reg : Registry) (id : String)
    (hF : env.procFind stackTracePath = true)
    (hC : ∀ m, exOk (env.fromString m) = true) :
    (processCallbacks env reg id).invoked = tagged id (registryGet reg id) ∧
    ∀ reg2, (processCallbacks env reg id).regOut = some reg2 →
      registryGet reg2 id = [] ∧ (processCallbacks env reg2 id).invoked = [] := by
  obtain ⟨hinv, hleft, hres⟩ :=
    drainQueue_convOk env (registryGet (registryInsert reg id) id) hC
  refine ⟨?_, ?_⟩
  · simp only [processCallbacks, hF, if_true, DrainOut.invoked]
    rw [hinv, registryGet_insert]
  · intro reg2 hreg2
    simp only [processCallbacks, hF, if_true, DrainOut.regOut, Option.some.injEq] at hreg2
    subst hreg2
    rw [hleft]
    have hget : registryGet (registrySet (registryInsert reg id) id []) id = [] :=
      registryGet_set _ id [] (registryHas_insert reg id)
    refine ⟨hget, ?_⟩
    simp only [processCallbacks, hF, if_true, DrainOut.invoked]
    rw [registryGet_insert, hget]
    rfl

/-- C2 witness: concrete two-callback channel, hypotheses discharged. -/
theorem drain_one_unbounded_exact_witness :
    envAll.procFind stackTracePath = true ∧
    (∀ m, exOk (envAll.fromString m) = true) ∧
    (processCallbacks envAll regW2 "c").invoked = tagged "c" (registryGet regW2 "c") :=
  ⟨rfl, fun _ => rfl, (drain_one_unbounded_exact envAll regW2 "c" rfl (fun _ => rfl)).1⟩

/-- C3 counterexample: with two queued callbacks across which the coarse
clock reports zero elapsed time (the coarse monotonic clock has
millisecond-or-worse resolution, so fast callbacks routinely leave it
unchanged), `process_callbacks_for(id, 0ms)` invokes BOTH callbacks — not
at most one — and returns budget-exceeded = false, refuting the claim at
this input. -/
theorem zero_budget_claim_refuted :
    ¬ ((processCallbacksFor envAll 0 regZ "z").invoked.length ≤ 1 ∧
       (processCallbacksFor envAll 0 regZ "z").resOut = some (.ok true)) ∧
    (processCallbacksFor envAll 0 regZ "z").invoked.length = 2 ∧
    (processCallbacksFor envAll 0 regZ "z").resOut = some (.ok false) := by
  refine ⟨?_, by decide, by decide⟩
  intro h
  have := h.1
  revert this
  decide

/-- C3 (amended): `process_callbacks_for(id, 0ms)` checks the budget only
after each invocation, so provided every invocation advances the observed
coarse clock (positive cost) and failure messages convert, it invokes at
most one callback and reports budget-exceeded = true whenever any callback
was queued (and false when the channel was empty). -/
theorem drain_one_zero_budget_amended (env : Env) (reg : Registry) (id : String)
    (hF : env.procFind stackTracePath = true)
    (hC : ∀ m, exOk (env.fromString m) = true)
    (hPos : ∀ cb ∈ registryGet reg id, 0 < cb.cost) :
    (processCallbacksFor env 0 reg id).invoked.length ≤ 1 ∧
    (registryGet reg id ≠ [] →
      (processCallbacksFor env 0 reg id).resOut = some (.ok true)) ∧
    (registryGet reg id = [] →
      (processCallbacksFor env 0 reg id).resOut = some (.ok false)) := by
  simp only [processCallbacksFor, hF, if_true, DrainOut.invoked, DrainOut.resOut]
  rw [registryGet_insert]
  cases hq : registryGet reg id with
  | nil =>
    simp [drainQueueFor, tagged]
  | cons cb rest =>
    have hc : 0 < cb.cost := hPos cb (by rw [hq]; exact List.mem_cons_self cb rest)
    cases hcb : cb.outcome with
    | ok u =>
      simp [drainQueueFor, hcb, hc, tagged, decide_eq_true hc]
    | error m =>
      cases hfs : env.fromString m with
      | ok v =>
        simp [drainQueueFor, hcb, hfs, hc, tagged, decide_eq_true hc]
      | error e => have := hC m; rw [hfs] at this; simp [exOk] at this

/-- C3 witness for the amended claim: both callbacks cost 1ms; exactly one
is invoked and the result is true. -/
theorem drain_one_zero_budget_amended_witness :
    (∀ cb ∈ registryGet regW3 "p", 0 < cb.cost) ∧
    (processCallbacksFor envAll 0 regW3 "p").invoked.length ≤ 1 ∧
    (registryGet regW3 "p" ≠ [] →
      (processCallbacksFor envAll 0 regW3 "p").resOut = some (.ok true)) :=
  ⟨by decide,
    (drain_one_zero_budget_amended envAll regW3 "p" rfl (fun _ => rfl) (by decide)).1,
    (drain_one_zero_budget_amended envAll regW3 "p" rfl (fun _ => rfl) (by decide)).2.1⟩

/-- C4: `process_all_callbacks_for` checks the elapsed time after every
invocation and `break 'outer` aborts the whole drain at once: the `n+1`-st
invoked callback (of any channel) exists only if the cost of the first `n`
was still within the budget, so once the budget is observed exceeded no
further callback of any channel runs; and (when the proc exists and
messages convert) the returned boolean is exactly whether the total
observed cost exceeded the budget. -/
theorem drain_all_bounded_abort (env : Env) (budget : Nat) (reg : Registry) :
    (∀ n, n < (processAllCallbacksFor env budget reg).invoked.length →
      costSumT ((processAllCallbacksFor env budget reg).invoked.take n) ≤ budget) ∧
    (env.procFind stackTracePath = true →
      (∀ m, exOk (env.fromString m) = true) →
      (processAllCallbacksFor env budget reg).resOut =
        some (.ok (decide (budget <
          costSumT (processAllCallbacksFor env budget reg).invoked)))) := by
  constructor
  · by_cases hF : env.procFind stackTracePath
    · simp only [processAllCallbacksFor, hF, if_true, DrainOut.invoked]
      intro n hn
      have := runChannelsFor_budget env budget 0 reg (Nat.zero_le _) n hn
      omega
    · simp [processAllCallbacksFor, hF, DrainOut.invoked]
  · intro hF hC
    simp only [processAllCallbacksFor, hF, if_true, DrainOut.resOut, DrainOut.invoked]
    rw [runChannelsFor_convOk_res env budget 0 reg hC]
    have := runChannelsFor_elapsed env budget 0 reg
    simp only [Nat.zero_add] at this
    rw [this]

/-- C4 witness: two channels of one 1ms callback each under a 1ms budget;
hypotheses discharged concretely. -/
theorem drain_all_bounded_abort_witness :
    envAll.procFind stackTracePath = true ∧
    (∀ m, exOk (envAll.fromString m) = true) ∧
    (processAllCallbacksFor envAll 1 regW4).resOut =
      some (.ok (decide (1 < costSumT (processAllCallbacksFor envAll 1 regW4).invoked))) :=
  ⟨rfl, fun _ => rfl, (drain_all_bounded_abort envAll 1 regW4).2 rfl (fun _ => rfl)⟩

/-- C5: the engine discards the outcome of the stack-trace proc call
(`let _ = stack_trace.call(...)`): for each of the four drains, replacing
the sink behaviour changes neither the invocation trace, nor the returned
result, nor the final registry, nor which messages are reported; and the
sink is called exactly once per failing callback whose message converts
(no retries), in order. -/
theorem sink_failure_discarded (env : Env) (σ : String → Except String Unit)
    (reg : Registry) (id : String) (budget fuel : Nat) :
    ((processCallbacks (env.withSink σ) reg id).invoked = (processCallbacks env reg id).invoked ∧
     (processCallbacks (env.withSink σ) reg id).resOut = (processCallbacks env reg id).resOut ∧
     (processCallbacks (env.withSink σ) reg id).regOut = (processCallbacks env reg id).regOut ∧
     (processCallbacks (env.withSink σ) reg id).sunk.map Prod.fst =
       (processCallbacks env reg id).sunk.map Prod.fst) ∧
    ((processCallbacksFor (env.withSink σ) budget reg id).invoked =
       (processCallbacksFor env budget reg id).invoked ∧
     (processCallbacksFor (env.withSink σ) budget reg id).resOut =
       (processCallbacksFor env budget reg id).resOut ∧
     (processCallbacksFor (env.withSink σ) budget reg id).regOut =
       (processCallbacksFor env budget reg id).regOut ∧
     (processCallbacksFor (env.withSink σ) budget reg id).sunk.map Prod.fst =
       (processCallbacksFor env budget reg id).sunk.map Prod.fst) ∧
    ((processAllCallbacksFor (env.withSink σ) budget reg).invoked =
       (processAllCallbacksFor env budget reg).invoked ∧
     (processAllCallbacksFor (env.withSink σ) budget reg).resOut =
       (processAllCallbacksFor env budget reg).resOut ∧
     (processAllCallbacksFor (env.withSink σ) budget reg).regOut =
       (processAllCallbacksFor env budget reg).regOut ∧
     (processAllCallbacksFor (env.withSink σ) budget reg).sunk.map Prod.fst =
       (processAllCallbacksFor env budget reg).sunk.map Prod.fst) ∧
    ((processAllCallbacks (env.withSink σ) fuel reg).invoked =
       (processAllCallbacks env fuel reg).invoked ∧
     (processAllCallbacks (env.withSink σ) fuel reg).resOut =
       (processAllCallbacks env fuel reg).resOut ∧
     (processAllCallbacks (env.withSink σ) fuel reg).regOut =
       (processAllCallbacks env fuel reg).regOut ∧
     (processAllCallbacks (env.withSink σ) fuel reg).sunk.map Prod.fst =
       (processAllCallbacks env fuel reg).sunk.map Prod.fst) ∧
    ((processCallbacks env reg id).sunk.map Prod.fst =
      reportedMsgs env ((processCallbacks env reg id).invoked.map Prod.snd)) ∧
    ((processCallbacksFor env budget reg id).sunk.map Prod.fst =
      reportedMsgs env ((processCallbacksFor env budget reg id).invoked.map Prod.snd)) ∧
    ((processAllCallbacksFor env budget reg).sunk.map Prod.fst =
      reportedMsgs env ((processAllCallbacksFor env budget reg).invoked.map Prod.snd)) ∧
    ((processAllCallbacks env fuel reg).sunk.map Prod.fst =
      reportedMsgs env ((processAllCallbacks env fuel reg).invoked.map Prod.snd)) := by
  refine ⟨?_, ?_, ?_, ?_, ?_, ?_, ?_, ?_⟩
  · by_cases hF : env.procFind stackTracePath <;>
      simp [processCallbacks, withSink_procFind, hF, drainQueue_withSink, DrainOut.invoked,
        DrainOut.resOut, DrainOut.regOut, DrainOut.sunk, mapSinkLog_fst]
  · by_cases hF : env.procFind stackTracePath <;>
      simp [processCallbacksFor, withSink_procFind, hF, drainQueueFor_withSink,
        DrainOut.invoked, DrainOut.resOut, DrainOut.regOut, DrainOut.sunk, mapSinkLog_fst]
  · by_cases hF : env.procFind stackTracePath <;>
      simp [processAllCallbacksFor, withSink_procFind, hF, runChannelsFor_withSink,
        DrainOut.invoked, DrainOut.resOut, DrainOut.regOut, DrainOut.sunk, mapSinkLog_fst]
  · by_cases hF : env.procFind stackTracePath
    · cases reg with
      | nil => simp [processAllCallbacks, withSink_procFind, hF]
      | cons e rest =>
        obtain ⟨id0, q⟩ := e
        cases hcl : chanLoopBlocking env fuel q with
        | blockedOut i k l =>
          simp [processAllCallbacks, withSink_procFind, hF, chanLoop_withSink, hcl,
            mapSinkChan, DrainOut.invoked, DrainOut.resOut, DrainOut.regOut, DrainOut.sunk,
            mapSinkLog_fst]
        | errored i k e2 l =>
          simp [processAllCallbacks, withSink_procFind, hF, chanLoop_withSink, hcl,
            mapSinkChan, DrainOut.invoked, DrainOut.resOut, DrainOut.regOut, DrainOut.sunk,
            mapSinkLog_fst]
    · simp [processAllCallbacks, withSink_procFind, hF]
  · by_cases hF : env.procFind stackTracePath <;>
      simp [processCallbacks, hF, DrainOut.sunk, DrainOut.invoked, drainQueue_sunk_fst,
        map_snd_tagged, reportedMsgs]
  · by_cases hF : env.procFind stackTracePath <;>
      simp [processCallbacksFor, hF, DrainOut.sunk, DrainOut.invoked, drainQueueFor_sunk_fst,
        map_snd_tagged, reportedMsgs]
  · by_cases hF : env.procFind stackTracePath <;>
      simp [processAllCallbacksFor, hF, DrainOut.sunk, DrainOut.invoked,
        runChannelsFor_sunk_fst, reportedMsgs]
  · by_cases hF : env.procFind stackTracePath
    · cases reg with
      | nil => simp [processAllCallbacks, hF, DrainOut.sunk, DrainOut.invoked, reportedMsgs]
      | cons e rest =>
        obtain ⟨id0, q⟩ := e
        have hsf := chanLoop_sunk_fst env fuel q
        cases hcl : chanLoopBlocking env fuel q with
        | blockedOut i k l =>
          rw [hcl] at hsf
          simp only [ChanLoopOut.sunkOf, ChanLoopOut.invokedOf] at hsf
          simp [processAllCallbacks, hF, hcl, DrainOut.sunk, DrainOut.invoked, hsf,
            map_snd_tagged]
        | errored i k e2 l =>
          rw [hcl] at hsf
          simp only [ChanLoopOut.sunkOf, ChanLoopOut.invokedOf] at hsf
          simp [processAllCallbacks, hF, hcl, DrainOut.sunk, DrainOut.invoked, hsf,
            map_snd_tagged]
    · simp [processAllCallbacks, hF, DrainOut.sunk, DrainOut.invoked, reportedMsgs]

/-- C6 counterexample: the report site is
`stack_trace.call(&[&Value::from_string(e.message.as_str())?])`, and the
`?` on `Value::from_string` propagates a conversion failure out of the
whole drain.  With a callback whose failure message does not convert (the
real conversion fails on a message with an interior NUL byte) followed by a
healthy callback and no time budget, the drain stops after the first
callback: the second queued callback is never invoked and the drain
surfaces the conversion error, refuting the claim at this input. -/
theorem failure_abort_refuted :
    registryGet regBad "w" = [cbBadMsg, cbAfterBad] ∧
    (processCallbacks envConvFail regBad "w").invoked = [("w", cbBadMsg)] ∧
    (processCallbacks envConvFail regBad "w").resOut =
      some (.error "string conversion failed") := by
  refine ⟨by decide, by decide, by decide⟩

/-- C6 (amended): a callback's failure by itself never aborts any of the
four drain operations — provided the failure message converts to a host
string (otherwise the propagated conversion error aborts the drain, see
the counterexample).  Then `process_callbacks` invokes the entire queue,
`process_callbacks_for` with an unexhausted budget invokes the entire
queue, `process_all_callbacks_for` with an unexhausted budget invokes
every queued callback of every channel (failures in earlier channels
included), and the blocking drain invokes every callback of the channel it
is visiting, given enough receive steps. -/
theorem callback_failure_contained_amended (env : Env) (reg : Registry) (id : String)
    (budget fuel : Nat) (q : List Callback) (rest : Registry)
    (hF : env.procFind stackTracePath = true)
    (hC : ∀ m, exOk (env.fromString m) = true) :
    (processCallbacks env reg id).invoked = tagged id (registryGet reg id) ∧
    (costSum (registryGet reg id) ≤ budget →
      (processCallbacksFor env budget reg id).invoked = tagged id (registryGet reg id)) ∧
    (totalCost reg ≤ budget →
      (processAllCallbacksFor env budget reg).invoked = allQueued reg) ∧
    (q.length ≤ fuel →
      (processAllCallbacks env fuel ((id, q) :: rest)).invoked = tagged id q) := by
  refine ⟨?_, ?_, ?_, ?_⟩
  · obtain ⟨hinv, -, -⟩ :=
      drainQueue_convOk env (registryGet (registryInsert reg id) id) hC
    simp only [processCallbacks, hF, if_true, DrainOut.invoked]
    rw [hinv, registryGet_insert]
  · intro hbud
    have hall := drainQueueFor_all env budget 0 (registryGet (registryInsert reg id) id) hC
      (by rw [registryGet_insert]; omega)
    simp only [processCallbacksFor, hF, if_true, DrainOut.invoked]
    rw [hall.1, registryGet_insert]
  · intro hbud
    simp only [processAllCallbacksFor, hF, if_true, DrainOut.invoked]
    exact runChannelsFor_all env budget 0 reg hC (by omega)
  · intro hfl
    have hall := chanLoop_all env fuel q hC hfl
    cases hcl : chanLoopBlocking env fuel q with
    | blockedOut i k l =>
      rw [hcl] at hall
      simp only [ChanLoopOut.invokedOf] at hall
      simp [processAllCallbacks, hF, hcl, DrainOut.invoked, hall]
    | errored i k e2 l =>
      rw [hcl] at hall
      simp only [ChanLoopOut.invokedOf] at hall
      simp [processAllCallbacks, hF, hcl, DrainOut.invoked, hall]

/-- C6 witness for the amended claim: a failing callback in channel "u"
does not stop the bounded all-channel drain from running channel "v". -/
theorem callback_failure_contained_amended_witness :
    (∀ m, exOk (envAll.fromString m) = true) ∧
    costSum (registryGet regW6 "u") ≤ 5 ∧
    (processCallbacksFor envAll 5 regW6 "u").invoked = tagged "u" (registryGet regW6 "u") ∧
    totalCost regW6 ≤ 5 ∧
    (processAllCallbacksFor envAll 5 regW6).invoked = allQueued regW6 :=
  ⟨fun _ => rfl, by decide,
    (callback_failure_contained_amended envAll regW6 "u" 5 0 [] [] rfl
      (fun _ => rfl)).2.1 (by decide),
    by decide,
    (callback_failure_contained_amended envAll regW6 "u" 5 0 [] [] rfl
      (fun _ => rfl)).2.2.1 (by decide)⟩

/-- C7: the hook dispatches on argument count — 0 arguments run the
blocking all-channel drain, 1 argument drains the named channel without
budget, 2 arguments drain the named channel when the first argument is a
valid string and otherwise every channel (returning the budget-exceeded
boolean), and any other count fails with exactly the specified message,
with the registry untouched and nothing invoked. -/
theorem dispatch_policy (env : Env) (fuel : Nat) (reg : Registry) (a b : HostValue)
    (s : String) (qn : ℚ) (args : List HostValue) :
    (dispatchProcessCallbacks env fuel reg [] =
      mapHV (fun _ => HostValue.null) (processAllCallbacks env fuel reg)) ∧
    (a.asString = .ok s →
      dispatchProcessCallbacks env fuel reg [a] =
        mapHV (fun _ => HostValue.null) (processCallbacks env reg s)) ∧
    (b.asNumber = .ok qn → a.asString = .ok s →
      dispatchProcessCallbacks env fuel reg [a, b] =
        mapHV boolValue (processCallbacksFor env (ratAsU64 qn) reg s)) ∧
    (b.asNumber = .ok qn → exOk a.asString = false →
      dispatchProcessCallbacks env fuel reg [a, b] =
        mapHV boolValue (processAllCallbacksFor env (ratAsU64 qn) reg)) ∧
    (3 ≤ args.length →
      dispatchProcessCallbacks env fuel reg args =
        .ret [] [] [] (.error
          "Invalid number of arguments for callback processing; must be 0, 1 or 2") reg) := by
  refine ⟨rfl, ?_, ?_, ?_, ?_⟩
  · intro ha
    simp [dispatchProcessCallbacks, ha]
  · intro hb ha
    simp [dispatchProcessCallbacks, hb, ha]
  · intro hb ha
    cases has : a.asString with
    | ok v => rw [has] at ha; simp [exOk] at ha
    | error e => simp [dispatchProcessCallbacks, hb, has]
  · intro hlen
    cases args with
    | nil => simp at hlen
    | cons x t1 =>
      cases t1 with
      | nil => simp only [List.length_cons, List.length_nil] at hlen; omega
      | cons y t2 =>
        cases t2 with
        | nil => simp only [List.length_cons, List.length_nil] at hlen; omega
        | cons z t3 => rfl

/-- C7 witness: a concrete 2-argument invocation with a valid string id
dispatches to the bounded single-channel drain. -/
theorem dispatch_policy_witness :
    (HostValue.num 5).asNumber = .ok 5 ∧
    (HostValue.str "k").asString = .ok "k" ∧
    dispatchProcessCallbacks envAll 2 regW7 [HostValue.str "k", HostValue.num 5] =
      mapHV boolValue (processCallbacksFor envAll (ratAsU64 5) regW7 "k") :=
  ⟨rfl, rfl,
    (dispatch_policy envAll 2 regW7 (HostValue.str "k") (HostValue.num 5) "k" 5 []).2.2.1
      rfl rfl⟩

/-- C8: the blocking all-channel drain never returns while it is visiting a
channel whose queue is empty and receives no further enqueue: the
`for callback in receiver` loop blocks on the never-closed channel, so for
every amount of receive fuel the drain is still stuck inside the blocking
wait (it never moves past that channel, let alone returns). -/
theorem blocking_drain_nonterminating (env : Env) (fuel : Nat) (reg : Registry)
    (id : String)
    (hF : env.procFind stackTracePath = true)
    (hMem : id ∈ (processAllCallbacks env fuel reg).visited)
    (hEmpty : registryGet reg id = []) :
    (processAllCallbacks env fuel reg).stillRunning = true := by
  cases reg with
  | nil => simp [processAllCallbacks, hF, DrainOut.visited] at hMem
  | cons e rest =>
    obtain ⟨id0, q⟩ := e
    cases hcl : chanLoopBlocking env fuel q with
    | blockedOut i k l =>
      simp [processAllCallbacks, hF, hcl, DrainOut.stillRunning]
    | errored i k e2 l =>
      simp only [processAllCallbacks, hF, if_true, hcl, DrainOut.visited,
        List.mem_singleton] at hMem
      subst hMem
      have hq : q = [] := by simpa [registryGet] using hEmpty
      subst hq
      rw [chanLoop_empty] at hcl
      simp at hcl

/-- C8 witness: a registry whose only channel is empty; after 4 receive
steps the drain is still blocked. -/
theorem blocking_drain_nonterminating_witness :
    envAll.procFind stackTracePath = true ∧
    "emptyc" ∈ (processAllCallbacks envAll 4 regW8).visited ∧
    registryGet regW8 "emptyc" = [] ∧
    (processAllCallbacks envAll 4 regW8).stillRunning = true :=
  ⟨rfl, by decide, by decide,
    blocking_drain_nonterminating envAll 4 regW8 "emptyc" rfl (by decide) (by decide)⟩

/-- C9: every drain operation begins with
`Proc::find("/proc/auxtools_stack_trace").unwrap()`; when the proc is
absent the unwrap panics before any callback is invoked (the `panicked`
outcome carries no invocations), for every registry — including empty
channels and queues whose callbacks would all succeed. -/
theorem missing_stack_trace_panics (env : Env) (reg : Registry) (id : String)
    (budget fuel : Nat) (h : env.procFind stackTracePath = false) :
    processCallbacks env reg id = .panicked ∧
    processCallbacksFor env budget reg id = .panicked ∧
    processAllCallbacksFor env budget reg = .panicked ∧
    processAllCallbacks env fuel reg = .panicked := by
  refine ⟨?_, ?_, ?_, ?_⟩ <;>
    simp [processCallbacks, processCallbacksFor, processAllCallbacksFor,
      processAllCallbacks, h]

/-- C9 witness: with a host that has no procs, even the drain of an absent
(empty) channel panics. -/
theorem missing_stack_trace_panics_witness :
    envNoProc.procFind stackTracePath = false ∧
    processCallbacks envNoProc [] "k2" = .panicked :=
  ⟨rfl, (missing_stack_trace_panics envNoProc [] "k2" 0 0 rfl).1⟩

/-- C10: the 2-argument path computes `as_number()? as u64` — the host
number is truncated toward zero (on the representable nonnegative range the
cast is the floor), any negative budget saturates to 0 milliseconds, and no
error is raised for a negative or fractional budget: the dispatch proceeds
to the bounded drain with the cast budget. -/
theorem budget_cast_semantics (env : Env) (fuel : Nat) (reg : Registry)
    (a b : HostValue) (qn : ℚ) (s : String) :
    (qn < 0 → ratAsU64 qn = 0) ∧
    (0 ≤ qn → qn ≤ (u64Max : ℚ) →
      ((ratAsU64 qn : ℚ) ≤ qn ∧ qn - 1 < (ratAsU64 qn : ℚ))) ∧
    (b.asNumber = .ok qn → a.asString = .ok s →
      dispatchProcessCallbacks env fuel reg [a, b] =
        mapHV boolValue (processCallbacksFor env (ratAsU64 qn) reg s)) := by
  refine ⟨?_, ?_, ?_⟩
  · intro h
    simp [ratAsU64, h]
  · intro h0 h1
    rw [ratAsU64, if_neg (not_lt.mpr h0)]
    have hfl0 : 0 ≤ ⌊qn⌋ := Int.floor_nonneg.mpr h0
    have hle : ⌊qn⌋ ≤ (u64Max : ℤ) := by
      have h2 := Int.floor_le_floor h1
      rwa [Int.floor_natCast] at h2
    have hmin : min (Int.toNat ⌊qn⌋) u64Max = Int.toNat ⌊qn⌋ :=
      min_eq_left (by omega)
    rw [hmin]
    have hcast : ((Int.toNat ⌊qn⌋ : ℕ) : ℚ) = ((⌊qn⌋ : ℤ) : ℚ) := by
      exact_mod_cast congrArg (fun z : ℤ => (z : ℚ)) (Int.toNat_of_nonneg hfl0)
    constructor
    · rw [hcast]
      exact Int.floor_le qn
    · rw [hcast]
      have := Int.lt_floor_add_one qn
      linarith
  · intro hb ha
    simp [dispatchProcessCallbacks, hb, ha]

/-- C10 witness: a negative fractional budget is accepted and cast to 0. -/
theorem budget_cast_semantics_witness :
    ((-1 / 2 : ℚ) < 0) ∧ ratAsU64 (-1 / 2) = 0 := by
  have h : (-1 / 2 : ℚ) < 0 := by norm_num
  exact ⟨h,
    (budget_cast_semantics envAll 0 [] HostValue.null HostValue.null (-1 / 2) "x").1 h⟩

end Auxcallback
